import Mathlib

/-!
Verification of the Electrum-like synchronization engine
(`src/blockchain/utils.rs`) against its natural-language specification.

The live code of the file is shallowly embedded below:
`electrum_like_setup`, `download_needed_raw_txs`, `download_needed_headers`,
`download_in_chunks` and `find_max_index` are translated function by
function.  The large commented-out block of the source (the legacy
BFS-based sync) is not live code and is not embedded.

Modelling conventions:
* transaction ids, scripts and block heights are `Nat` (heights from the
  remote are `Int`, as in the source where they are `i32`);
* the Rust `HashSet`/`HashMap` accumulators are lists: insertion is cons,
  map lookup is `List.lookup` (first hit = most recent insertion, which
  matches `HashMap::insert` overwrite semantics), and conversion of a set
  to an iteration sequence dedups the list;
* the fallible remote capability is a record of functions returning
  `Except Nat`; the store commit is modelled by a boolean `commitOk`
  telling whether `commit_batch` succeeds;
* batched calls also return the list of request batches they issued, so
  that theorems can speak about what was requested from the remote.
-/

abbrev Txid := Nat

abbrev Script := Nat

/-- Model of `bitcoin::OutPoint`: a transaction id plus an output index. -/
structure OutPoint where
  txid : Txid
  vout : Nat
deriving DecidableEq, Repr

/-- The all-zero transaction id referenced by coinbase inputs. -/
def nullTxid : Txid := 0

/-- Model of `OutPoint::null()`: the null txid together with `u32::MAX`. -/
def nullOutPoint : OutPoint := { txid := nullTxid, vout := 4294967295 }

/-- Model of `OutPoint::is_null`. -/
def OutPoint.is_null (o : OutPoint) : Bool := o = nullOutPoint

/-- Model of `bitcoin::TxIn`: only the previous output is used by the code. -/
structure TxIn where
  previous_output : OutPoint
deriving DecidableEq, Repr

/-- Model of `bitcoin::Transaction`: the content-addressing `txid()` method
is modelled by a field, and only the inputs are inspected by the code. -/
structure Transaction where
  txid : Txid
  input : List TxIn
deriving DecidableEq, Repr

/-- Model of `ELSGetHistoryRes` (src lines 43-47). -/
structure ELSGetHistoryRes where
  height : Int
  tx_hash : Txid
deriving DecidableEq, Repr

/-- Model of `ScriptType`: the External (receive) and Internal (change)
derivation chains. -/
inductive ScriptType where
  | External : ScriptType
  | Internal : ScriptType
deriving DecidableEq, Repr

/-- Model of `TransactionDetails` restricted to the fields the live code
could inspect: the summarized transaction id and its height. -/
structure TransactionDetails where
  txid : Txid
  height : Option Nat
deriving DecidableEq, Repr

/-- The store as seen by the live code: derived scripts per chain
(`iter_script_pubkeys`), the summaries (`iter_txs`), the raw transactions
(`iter_raw_txs`) and the per-chain derivation-index high-water-mark
(`get_last_index`/`set_last_index`, which the live code never calls). -/
structure Database where
  script_pubkeys : ScriptType → List Script
  tx_details : List TransactionDetails
  raw_txs : List Transaction
  last_index : ScriptType → Option Nat

/-- The batched remote capability consumed by the engine: per-batch script
history and per-batch transaction fetch, both fallible. -/
structure Remote where
  hist : List Script → Except Nat (List (List ELSGetHistoryRes))
  fetch : List Txid → Except Nat (List Transaction)

/-- Modelled from the spec: the chunking utility (`ChunksIterator`, whose
source is not part of the excerpt) splits a sequence into successive
fixed-size groups; a final shorter group holds the remainder.  Structural
fuel (the list length) makes the definition computable by the kernel. -/
def chunksFuel {α : Type} : Nat → List α → Nat → List (List α)
  | 0, _, _ => []
  | _ + 1, [], _ => []
  | fuel + 1, x :: xs, n => (x :: xs).take n :: chunksFuel fuel ((x :: xs).drop n) n

/-- Modelled from the spec: `ChunksIterator::new(iter, n)` as a function on
lists.  A chunk size of zero yields no chunks. -/
def chunks {α : Type} (xs : List α) (n : Nat) : List (List α) :=
  if n = 0 then [] else chunksFuel xs.length xs n

/-- Model of `find_max_index` (src lines 510-516): the largest position,
within one batched call result, whose history list is non-empty. -/
def find_max_index (vec : List (List ELSGetHistoryRes)) : Option Nat :=
  ((vec.enum.filter (fun p => !p.2.isEmpty)).map Prod.fst).max?

/-- The pass-local scan accumulators of `electrum_like_setup`
(src lines 91-93): `history_txs_id`, `txid_height` and `max_index`. -/
structure ScanState where
  history_txs_id : List Txid
  txid_height : List (Txid × Option Nat)
  max_index : List (ScriptType × Nat)
deriving DecidableEq, Repr

/-- The empty accumulators built at the start of a pass. -/
def ScanState.init : ScanState := { history_txs_id := [], txid_height := [], max_index := [] }

/-- Model of `max_index.insert(script_type, max)` guarded by
`if let Some(max) = find_max_index(..)` (src lines 104-106). -/
def insertMax (t : ScriptType) (r : Option Nat) (st : ScanState) : ScanState :=
  match r with
  | some m => { st with max_index := (t, m) :: st.max_index }
  | none => st

/-- Model of the body of `for el in flattened` (src lines 114-125): the
height is clamped at zero, zero becomes unconfirmed (`none`), a positive
value becomes `some`, and the id joins the touched set. -/
def processEntry (st : ScanState) (el : ELSGetHistoryRes) : ScanState :=
  if max el.height 0 = 0 then
    { st with
      txid_height := (el.tx_hash, none) :: st.txid_height
      history_txs_id := el.tx_hash :: st.history_txs_id }
  else
    { st with
      txid_height := (el.tx_hash, some (max el.height 0).toNat) :: st.txid_height
      history_txs_id := el.tx_hash :: st.history_txs_id }

/-- The normalization the code applies to a reported history height:
`el.height.max(0)`, then `0 ↦ None` and positive `h ↦ Some h`. -/
def normalizeHeight (h : Int) : Option Nat :=
  if max h 0 = 0 then none else some (max h 0).toNat

/-- Model of the chunk loop of one chain's scan (src lines 101-126): each
chunk is one batched history request; `find_max_index` is recorded before
the emptiness test; an entirely empty chunk stops the chain.  The first
component collects the request batches issued. -/
def scanChunks (f : List Script → Except Nat (List (List ELSGetHistoryRes)))
    (t : ScriptType) :
    List (List Script) → ScanState → List (List Script) × Except Nat ScanState
  | [], st => ([], Except.ok st)
  | c :: rest, st =>
    match f c with
    | Except.error e => ([c], Except.error e)
    | Except.ok cr =>
      if cr.flatten.isEmpty then
        ([c], Except.ok (insertMax t (find_max_index cr) st))
      else
        (c :: (scanChunks f t rest
            (cr.flatten.foldl processEntry (insertMax t (find_max_index cr) st))).1,
          (scanChunks f t rest
            (cr.flatten.foldl processEntry (insertMax t (find_max_index cr) st))).2)

/-- One chain's scan: the chunk loop run over the `G`-sized chunks of the
chain's derived scripts. -/
def scanChain (f : List Script → Except Nat (List (List ELSGetHistoryRes)))
    (t : ScriptType) (scripts : List Script) (G : Nat) (st : ScanState) :
    List (List Script) × Except Nat ScanState :=
  scanChunks f t (chunks scripts G) st

/-- Model of `for script_type in wallet_chains` (src lines 99-127):
the chains are scanned in order, threading the shared accumulators. -/
def scanChains (f : List Script → Except Nat (List (List ELSGetHistoryRes)))
    (G : Nat) (db : Database) :
    List ScriptType → ScanState → List (List Script) × Except Nat ScanState
  | [], st => ([], Except.ok st)
  | t :: rest, st =>
    match scanChain f t (db.script_pubkeys t) G st with
    | (reqs, Except.error e) => (reqs, Except.error e)
    | (reqs, Except.ok st2) =>
      ((reqs ++ (scanChains f G db rest st2).1), (scanChains f G db rest st2).2)

/-- Model of src line 95: `vec![ScriptType::External, ScriptType::External]`.
The source then shuffles this vector, but every permutation of a two-element
list whose elements are equal is the list itself, so the value is
deterministic.  Note that both elements are `External`. -/
def wallet_chains : List ScriptType := [ScriptType.External, ScriptType.External]

/-- Model of the loop body of `download_in_chunks` (src lines 199-211):
fetch each chunk, propagating the first error; the issued request batches
are returned alongside. -/
def downloadGo (fetch : List Txid → Except Nat (List Transaction)) :
    List (List Txid) → List (List Txid) × Except Nat (List Transaction)
  | [] => ([], Except.ok [])
  | c :: rest =>
    match fetch c with
    | Except.error e => ([c], Except.error e)
    | Except.ok txs =>
      match downloadGo fetch rest with
      | (reqs, Except.error e) => (c :: reqs, Except.error e)
      | (reqs, Except.ok more) => (c :: reqs, Except.ok (txs ++ more))

/-- Model of `download_in_chunks` (src lines 199-211). -/
def download_in_chunks (fetch : List Txid → Except Nat (List Transaction))
    (to_download : List Txid) (chunk_size : Nat) :
    List (List Txid) × Except Nat (List Transaction) :=
  downloadGo fetch (chunks to_download chunk_size)

/-- The predecessor ids collected from the fetched transactions' inputs
(src lines 173-178).  The source inserts `input.previous_output.txid` for
every input, with no test for coinbase/null outpoints. -/
def previousTxids (txs : List Transaction) : List Txid :=
  (txs.map (fun tx => tx.input.map (fun i => i.previous_output.txid))).flatten

/-- Model of `download_needed_raw_txs` (src lines 160-186): download the
history ids missing from the store, then one extra hop of predecessor ids
not already downloaded or stored.  The first component collects every
request batch issued to the remote. -/
def download_needed_raw_txs (fetch : List Txid → Except Nat (List Transaction))
    (history_txs_id : List Txid) (txids_in_db : List Txid) (chunk_size : Nat) :
    List (List Txid) × Except Nat (List Transaction) :=
  if (history_txs_id.dedup.filter (fun t => !(txids_in_db.contains t))).isEmpty then
    ([], Except.ok [])
  else
    match download_in_chunks fetch
        (history_txs_id.dedup.filter (fun t => !(txids_in_db.contains t))) chunk_size with
    | (reqs1, Except.error e) => (reqs1, Except.error e)
    | (reqs1, Except.ok txs1) =>
      match download_in_chunks fetch
          ((previousTxids txs1).dedup.filter
            (fun t => !((txs1.map Transaction.txid ++ txids_in_db).contains t))) chunk_size with
      | (reqs2, Except.error e) => (reqs1 ++ reqs2, Except.error e)
      | (reqs2, Except.ok txs2) => (reqs1 ++ reqs2, Except.ok (txs1 ++ txs2))

/-- Model of `download_needed_headers` (src lines 189-197): the body is a
`TODO` stub that ignores its arguments and returns `Ok(HashMap::new())`. -/
def download_needed_headers (_txid_height : List (Txid × Option Nat))
    (_tx_details_in_db : List TransactionDetails) (_chunk_size : Nat) :
    Except Nat (List (Txid × Nat)) :=
  Except.ok []

/-- Model of the raw-transaction batch of src lines 141-147: `set_raw_tx`
for every new transaction, then `commit_batch`; `commitOk` tells whether
the commit succeeds. -/
def commit_batch (commitOk : Bool) (db : Database) (new_txs : List Transaction) :
    Except Nat Database :=
  if commitOk then Except.ok { db with raw_txs := db.raw_txs ++ new_txs } else Except.error 1

/-- Model of `electrum_like_setup` (src lines 78-157), the live sync pass:
scan the chains of `wallet_chains`, snapshot the store, download missing
raw transactions and headers, then commit the new raw transactions —
discarding the commit's result, exactly as the source does (src line 146:
`database.commit_batch(batch);` without `?`).  The loop over
`tx_details_in_db` (src line 152) has an empty body and is a no-op.  The
second component is the store state after the pass. -/
def electrum_like_setup (remote : Remote) (commitOk : Bool)
    (stop_gap : Option Nat) (db : Database) : Except Nat Unit × Database :=
  match (scanChains remote.hist (stop_gap.getD 20) db wallet_chains ScanState.init).2 with
  | Except.error e => (Except.error e, db)
  | Except.ok st =>
    match (download_needed_raw_txs remote.fetch st.history_txs_id
        (db.raw_txs.map Transaction.txid) (stop_gap.getD 20)).2 with
    | Except.error e => (Except.error e, db)
    | Except.ok new_txs =>
      match download_needed_headers st.txid_height db.tx_details (stop_gap.getD 20) with
      | Except.error e => (Except.error e, db)
      | Except.ok _new_timestamps =>
        if new_txs.isEmpty then (Except.ok (), db)
        else
          match commit_batch commitOk db new_txs with
          | Except.ok db2 => (Except.ok (), db2)
          | Except.error _ => (Except.ok (), db)

/-- A deterministic, infallible per-script history oracle lifted to the
batched call: one result list per requested script, in order. -/
def oracleHist (h : Nat → List ELSGetHistoryRes) :
    List Script → Except Nat (List (List ELSGetHistoryRes)) :=
  fun scripts => Except.ok (scripts.map h)

/-- The history entries of an `Except`-wrapped scan outcome (empty on
error); lets closed theorems inspect the touched-id accumulator. -/
def scanHistoryOk : Except Nat ScanState → List Txid
  | Except.ok st => st.history_txs_id
  | Except.error _ => []

/-- The max-index entries of an `Except`-wrapped scan outcome (empty on
error). -/
def scanMaxOk : Except Nat ScanState → List (ScriptType × Nat)
  | Except.ok st => st.max_index
  | Except.error _ => []

/-- Concrete store: one External script (index 0), nothing else. -/
def db1 : Database :=
  { script_pubkeys := fun t =>
      match t with
      | ScriptType.External => [0]
      | ScriptType.Internal => []
    tx_details := []
    raw_txs := []
    last_index := fun _ => none }

/-- Concrete remote: script 0 has one confirmed history entry (txid 42 at
height 1), every fetched transaction has no inputs. -/
def rem1 : Remote :=
  { hist := fun c =>
      Except.ok (c.map (fun s => if s = 0 then [{ height := 1, tx_hash := 42 }] else []))
    fetch := fun reqs => Except.ok (reqs.map (fun t => { txid := t, input := [] })) }

/-- Concrete remote whose transaction fetch always fails with error 7. -/
def remF : Remote :=
  { hist := rem1.hist, fetch := fun _ => Except.error 7 }

/-- Concrete store: one Internal script (index 5, script 5), no External
scripts. -/
def dbInt : Database :=
  { script_pubkeys := fun t =>
      match t with
      | ScriptType.External => []
      | ScriptType.Internal => [5]
    tx_details := []
    raw_txs := []
    last_index := fun _ => none }

/-- Concrete remote: script 5 (the Internal script of `dbInt`) has one
history entry with txid 99. -/
def remInt : Remote :=
  { hist := fun c =>
      Except.ok (c.map (fun s => if s = 5 then [{ height := 3, tx_hash := 99 }] else []))
    fetch := fun reqs => Except.ok (reqs.map (fun t => { txid := t, input := [] })) }

/-- A coinbase transaction: its only input spends the null outpoint. -/
def txCb : Transaction := { txid := 7, input := [{ previous_output := nullOutPoint }] }

/-- Concrete fetch function returning the coinbase `txCb` for id 7 and an
input-less transaction for any other id. -/
def fetchCb : List Txid → Except Nat (List Transaction) :=
  fun reqs => Except.ok (reqs.map (fun t => if t = 7 then txCb else { txid := t, input := [] }))

/-- Concrete fetch function returning an input-less transaction per id. -/
def fetch0 : List Txid → Except Nat (List Transaction) :=
  fun reqs => Except.ok (reqs.map (fun t => { txid := t, input := [] }))

/-- Concrete oracle for the gap-limit witness: indices 0,1,2 are active,
everything above is unused. -/
def exHist : Nat → List ELSGetHistoryRes :=
  fun i => if i < 3 then [{ height := 1, tx_hash := i }] else []

/-- A successful commit only appends to the raw-transaction store: the
summaries and the high-water-marks of the committed store are those of the
input store. -/
theorem commit_batch_preserves {c : Bool} {db db2 : Database} {l : List Transaction}
    (h : commit_batch c db l = Except.ok db2) :
    db2.tx_details = db.tx_details ∧ db2.last_index = db.last_index := by
  unfold commit_batch at h
  by_cases hc : c = true
  · rw [if_pos hc] at h
    cases h
    exact ⟨rfl, rfl⟩
  · rw [if_neg hc] at h
    cases h

/-- A sync pass never writes a transaction summary: the store's
`tx_details` after the pass equal those before it. -/
theorem setup_preserves_details (r : Remote) (c : Bool) (s : Option Nat) (db : Database) :
    ((electrum_like_setup r c s db).2).tx_details = db.tx_details := by
  unfold electrum_like_setup
  split
  · rfl
  · split
    · rfl
    · split
      · rfl
      · split
        · rfl
        · split
          · rename_i db2 heq
            exact (commit_batch_preserves heq).1
          · rfl

/-- A sync pass never writes a derivation-index high-water-mark: the
store's `last_index` after the pass equals the one before it. -/
theorem setup_preserves_last_index (r : Remote) (c : Bool) (s : Option Nat) (db : Database) :
    ((electrum_like_setup r c s db).2).last_index = db.last_index := by
  unfold electrum_like_setup
  split
  · rfl
  · split
    · rfl
    · split
      · rfl
      · split
        · rfl
        · split
          · rename_i db2 heq
            exact (commit_batch_preserves heq).2
          · rfl

/-- Claim C1 (refuted, code bug): the claim says every sync pass scans both
chains, External and Internal.  In the source (line 95) `wallet_chains` is
`vec![ScriptType::External, ScriptType::External]`, so Internal is never
scanned: concretely, a wallet whose only activity is on an Internal script
(store `dbInt`, remote `remInt`, which reports history entry txid 99 for
that script) finishes a pass without downloading anything. -/
theorem claim_C1_internal_never_scanned :
    wallet_chains = [ScriptType.External, ScriptType.External] ∧
    ScriptType.Internal ∉ wallet_chains ∧
    remInt.hist [5] = Except.ok [[{ height := 3, tx_hash := 99 }]] ∧
    (electrum_like_setup remInt true (some 20) dbInt).1 = Except.ok () ∧
    ((electrum_like_setup remInt true (some 20) dbInt).2).raw_txs = [] :=
  ⟨rfl, by decide, rfl, rfl, rfl⟩

/-- Claim C2 (refuted, code bug): the claim says that after a pass the store
holds exactly one summary per touched transaction id and none for other
ids.  The loop meant to do this (src line 152) has an empty body: no sync
pass ever writes or deletes a summary (first conjunct), and concretely a
pass that touches txid 42 against an empty store succeeds while leaving
the summary store empty. -/
theorem claim_C2_summaries_never_reconciled :
    (∀ r c s db, ((electrum_like_setup r c s db).2).tx_details = db.tx_details) ∧
    (electrum_like_setup rem1 true (some 20) db1).1 = Except.ok () ∧
    42 ∈ scanHistoryOk (scanChains rem1.hist 20 db1 wallet_chains ScanState.init).2 ∧
    ((electrum_like_setup rem1 true (some 20) db1).2).tx_details = [] :=
  ⟨setup_preserves_details, rfl, by decide, rfl⟩

/-- Claim C3 (refuted, code bug): the claim says a pass persists each
chain's derivation-index high-water-mark.  The live code computes
`max_index` but never calls `set_last_index`: no pass ever changes any
stored high-water-mark (first conjunct), and concretely a pass in which the
scanner did observe a non-empty index (second conjunct) still leaves the
External high-water-mark at its initial `none`. -/
theorem claim_C3_hwm_never_persisted :
    (∀ r c s db, ((electrum_like_setup r c s db).2).last_index = db.last_index) ∧
    scanMaxOk (scanChains rem1.hist 20 db1 wallet_chains ScanState.init).2
      = [(ScriptType.External, 0), (ScriptType.External, 0)] ∧
    ((electrum_like_setup rem1 true (some 20) db1).2).last_index ScriptType.External = none :=
  ⟨setup_preserves_last_index, rfl, rfl⟩

/-- Claim C4 (refuted, code bug): the claim says a failing batch commit of
the downloaded raw transactions makes the pass return that error.  The
source (line 146) drops the `Result` of `commit_batch`: with a pass that
downloads txid 42 (second conjunct) and a store whose commit fails (first
conjunct), the pass still returns success and the store is unchanged. -/
theorem claim_C4_commit_error_swallowed :
    commit_batch false db1 [{ txid := 42, input := [] }] = Except.error 1 ∧
    (download_needed_raw_txs rem1.fetch [42, 42] [] 20).2
      = Except.ok [{ txid := 42, input := [] }] ∧
    electrum_like_setup rem1 false (some 20) db1 = (Except.ok (), db1) :=
  ⟨rfl, rfl, rfl⟩

/-- Claim C5 (refuted, code bug): the claim says coinbase inputs (previous
output = the null outpoint) are excluded when collecting predecessor ids,
so the null txid is never requested.  The source (lines 173-178) inserts
every input's `previous_output.txid` with no null test: fetching the
coinbase transaction `txCb` (whose only input is the null outpoint, first
conjunct) makes the downloader issue a second request batch containing the
null txid. -/
theorem claim_C5_null_txid_requested :
    txCb.input.all (fun i => i.previous_output.is_null) = true ∧
    (download_needed_raw_txs fetchCb [7] [] 20).1 = [[7], [nullTxid]] ∧
    nullTxid ∈ ((download_needed_raw_txs fetchCb [7] [] 20).1).flatten :=
  ⟨by decide, rfl, by decide⟩

/-- Claim C6 (refuted, code bug): the claim describes the height/timestamp
resolver batch-fetching headers and mapping confirmed ids to timestamps.
The source (lines 189-197) is a `TODO` stub: for every input — in
particular for a confirmed touched id not summarized locally — it fetches
nothing and returns the empty map. -/
theorem claim_C6_headers_resolver_is_stub :
    ∀ (th : List (Txid × Option Nat)) (td : List TransactionDetails) (n : Nat),
    download_needed_headers th td n = Except.ok [] :=
  fun _ _ _ => rfl

/-- Claim C9 (confirmed): every history entry's reported height is
normalized on its way into the txid-to-height map: the entry's id maps to
`normalizeHeight` of its height (most recent insertion wins), and
`normalizeHeight` sends `0` and `-1` to unconfirmed (`none`) and any
positive `h` to confirmed-at-`h` (`some h`). -/
theorem claim_C9_height_normalization :
    (∀ (st : ScanState) (el : ELSGetHistoryRes),
      List.lookup el.tx_hash ((processEntry st el).txid_height)
        = some (normalizeHeight el.height)) ∧
    normalizeHeight 0 = none ∧
    normalizeHeight (-1) = none ∧
    (∀ h : Int, 0 < h → normalizeHeight h = some h.toNat) := by
  refine ⟨?_, rfl, rfl, ?_⟩
  · intro st el
    unfold processEntry normalizeHeight
    by_cases hm : max el.height 0 = 0
    · simp [hm, List.lookup]
    · simp [hm, List.lookup]
  · intro h hh
    unfold normalizeHeight
    rw [if_neg]
    · rw [max_eq_left hh.le]
    · rw [max_eq_left hh.le]
      exact hh.ne'

/-- Witness for claim C9: the entry with height `-1` and txid 42, processed
into the empty state, is looked up as unconfirmed, and height 5 normalizes
to confirmed-at-5. -/
theorem claim_C9_witness :
    List.lookup 42 ((processEntry ScanState.init { height := -1, tx_hash := 42 }).txid_height)
      = some (normalizeHeight (-1)) ∧
    (0 : Int) < 5 ∧ normalizeHeight 5 = some (Int.toNat 5) :=
  ⟨claim_C9_height_normalization.1 ScanState.init { height := -1, tx_hash := 42 },
   by decide,
   claim_C9_height_normalization.2.2.2 5 (by decide)⟩

/-- Claim C7 (confirmed): if, after a successful scan, the raw-transaction
download phase reports a remote error, the whole pass returns that error
and the store is exactly the store from before the pass — no raw
transaction is committed. -/
theorem claim_C7_download_error_aborts :
    ∀ (remote : Remote) (commitOk : Bool) (sg : Option Nat) (db : Database)
      (e : Nat) (st : ScanState),
    (scanChains remote.hist (sg.getD 20) db wallet_chains ScanState.init).2 = Except.ok st →
    (download_needed_raw_txs remote.fetch st.history_txs_id
      (db.raw_txs.map Transaction.txid) (sg.getD 20)).2 = Except.error e →
    electrum_like_setup remote commitOk sg db = (Except.error e, db) := by
  intro remote c sg db e st hscan hdl
  unfold electrum_like_setup
  simp only [hscan, hdl]

/-- Witness for claim C7: against store `db1` the remote `remF` scans txid
42 successfully but fails every transaction fetch with error 7; the pass
returns error 7 and the store is unchanged. -/
theorem claim_C7_witness :
    electrum_like_setup remF true (some 20) db1 = (Except.error 7, db1) :=
  claim_C7_download_error_aborts remF true (some 20) db1 7
    { history_txs_id := [42, 42]
      txid_height := [(42, some 1), (42, some 1)]
      max_index := [(ScriptType.External, 0), (ScriptType.External, 0)] }
    rfl rfl

/-- Every element of a chunk produced by `chunksFuel` is an element of the
chunked list. -/
theorem mem_of_mem_chunksFuel {α : Type} :
    ∀ (fuel : Nat) (xs : List α) (n : Nat) (c : List α),
    c ∈ chunksFuel fuel xs n → ∀ x ∈ c, x ∈ xs := by
  intro fuel
  induction fuel with
  | zero =>
    intro xs n c hc
    simp [chunksFuel] at hc
  | succ f ih =>
    intro xs n c hc x hx
    cases xs with
    | nil => simp [chunksFuel] at hc
    | cons y ys =>
      simp only [chunksFuel, List.mem_cons] at hc
      rcases hc with rfl | hc
      · exact List.take_subset _ _ hx
      · exact List.drop_subset _ _ (ih _ n c hc x hx)

/-- Every element of a chunk produced by `chunks` is an element of the
chunked list. -/
theorem mem_of_mem_chunks {α : Type} {xs : List α} {n : Nat} {c : List α}
    (hc : c ∈ chunks xs n) : ∀ x ∈ c, x ∈ xs := by
  unfold chunks at hc
  by_cases hn : n = 0
  · rw [if_pos hn] at hc
    simp at hc
  · rw [if_neg hn] at hc
    exact mem_of_mem_chunksFuel _ _ _ _ hc

/-- Every request batch issued by the chunked-download loop is one of the
chunks it was given. -/
theorem downloadGo_requests_mem (fetch : List Txid → Except Nat (List Transaction)) :
    ∀ (cl : List (List Txid)) (req : List Txid),
    req ∈ (downloadGo fetch cl).1 → req ∈ cl := by
  intro cl
  induction cl with
  | nil =>
    intro req h
    simp [downloadGo] at h
  | cons c rest ih =>
    intro req h
    simp only [downloadGo] at h
    cases hf : fetch c with
    | error e =>
      rw [hf] at h
      simp at h
      simp [h]
    | ok txs =>
      rw [hf] at h
      rcases hgo : downloadGo fetch rest with ⟨reqs, r⟩
      rw [hgo] at h
      cases r with
      | error e =>
        simp at h
        rcases h with rfl | h
        · exact List.mem_cons_self _ _
        · exact List.mem_cons_of_mem _ (ih req (by rw [hgo]; exact h))
      | ok more =>
        simp at h
        rcases h with rfl | h
        · exact List.mem_cons_self _ _
        · exact List.mem_cons_of_mem _ (ih req (by rw [hgo]; exact h))

/-- Every id inside a request batch issued by `download_in_chunks` comes
from the list of ids it was asked to download. -/
theorem download_in_chunks_requests_mem
    (fetch : List Txid → Except Nat (List Transaction))
    {l : List Txid} {n : Nat} {req : List Txid}
    (h : req ∈ (download_in_chunks fetch l n).1) : ∀ t ∈ req, t ∈ l := by
  intro t ht
  exact mem_of_mem_chunks (downloadGo_requests_mem fetch _ req h) t ht

/-- A `contains` test on a `Txid` list is membership. -/
theorem txid_contains_iff {l : List Txid} {t : Txid} : l.contains t = true ↔ t ∈ l := by
  simp [List.contains, List.elem_iff]

/-- Claim C10 (confirmed): the transaction-graph downloader never requests
an id already present in the local raw-transaction set — in either hop,
first download or predecessor download — and when every history id is
already present locally it issues no request at all and returns the empty
list. -/
theorem claim_C10_no_redundant_requests :
    ∀ (fetch : List Txid → Except Nat (List Transaction))
      (history dbids : List Txid) (n : Nat),
    (∀ req ∈ (download_needed_raw_txs fetch history dbids n).1, ∀ t ∈ req, t ∉ dbids) ∧
    ((∀ t ∈ history, t ∈ dbids) →
      download_needed_raw_txs fetch history dbids n = ([], Except.ok [])) := by
  intro fetch history dbids n
  have fromHop1 : ∀ req ∈ (download_in_chunks fetch
      (history.dedup.filter (fun t => !(dbids.contains t))) n).1,
      ∀ t ∈ req, t ∉ dbids := by
    intro req hr t ht hmem
    have htl := download_in_chunks_requests_mem fetch hr t ht
    have hfalse := (List.mem_filter.mp htl).2
    rw [Bool.not_eq_true'] at hfalse
    rw [txid_contains_iff.mpr hmem] at hfalse
    cases hfalse
  have fromHop2 : ∀ (txs1 : List Transaction),
      ∀ req ∈ (download_in_chunks fetch
        ((previousTxids txs1).dedup.filter
          (fun t => !((txs1.map Transaction.txid ++ dbids).contains t))) n).1,
      ∀ t ∈ req, t ∉ dbids := by
    intro txs1 req hr t ht hmem
    have htl := download_in_chunks_requests_mem fetch hr t ht
    have hfalse := (List.mem_filter.mp htl).2
    rw [Bool.not_eq_true'] at hfalse
    have hap : t ∈ txs1.map Transaction.txid ++ dbids := List.mem_append.mpr (Or.inr hmem)
    rw [txid_contains_iff.mpr hap] at hfalse
    cases hfalse
  constructor
  · intro req hreq t ht hmem
    unfold download_needed_raw_txs at hreq
    split at hreq
    · simp at hreq
    · split at hreq
      · rename_i reqs1 e heq
        replace hreq : req ∈ reqs1 := hreq
        have hr1 : req ∈ (download_in_chunks fetch
            (history.dedup.filter (fun t => !(dbids.contains t))) n).1 := by
          rw [heq]
          exact hreq
        exact fromHop1 req hr1 t ht hmem
      · rename_i reqs1 txs1 heq
        split at hreq
        · rename_i reqs2 e heq2
          replace hreq : req ∈ reqs1 ++ reqs2 := hreq
          rcases List.mem_append.mp hreq with hr | hr
          · have hr1 : req ∈ (download_in_chunks fetch
                (history.dedup.filter (fun t => !(dbids.contains t))) n).1 := by
              rw [heq]
              exact hr
            exact fromHop1 req hr1 t ht hmem
          · have hr2 : req ∈ (download_in_chunks fetch
                ((previousTxids txs1).dedup.filter
                  (fun t => !((txs1.map Transaction.txid ++ dbids).contains t))) n).1 := by
              rw [heq2]
              exact hr
            exact fromHop2 txs1 req hr2 t ht hmem
        · rename_i reqs2 txs2 heq2
          replace hreq : req ∈ reqs1 ++ reqs2 := hreq
          rcases List.mem_append.mp hreq with hr | hr
          · have hr1 : req ∈ (download_in_chunks fetch
                (history.dedup.filter (fun t => !(dbids.contains t))) n).1 := by
              rw [heq]
              exact hr
            exact fromHop1 req hr1 t ht hmem
          · have hr2 : req ∈ (download_in_chunks fetch
                ((previousTxids txs1).dedup.filter
                  (fun t => !((txs1.map Transaction.txid ++ dbids).contains t))) n).1 := by
              rw [heq2]
              exact hr
            exact fromHop2 txs1 req hr2 t ht hmem
  · intro hsub
    unfold download_needed_raw_txs
    have hcond : (history.dedup.filter (fun t => !(dbids.contains t))).isEmpty = true := by
      apply List.isEmpty_iff.mpr
      apply List.filter_eq_nil_iff.mpr
      intro a ha
      have hmem : a ∈ dbids := hsub a (List.mem_dedup.mp ha)
      rw [txid_contains_iff.mpr hmem]
      simp
    rw [if_pos hcond]

/-- Witness for claim C10: with history {5} entirely contained in the local
store {5}, the downloader issues no request and returns the empty list. -/
theorem claim_C10_witness :
    download_needed_raw_txs fetch0 [5] [5] 3 = ([], Except.ok []) :=
  (claim_C10_no_redundant_requests fetch0 [5] [5] 3).2 (by decide)

/-- The fuel of `chunksFuel` is irrelevant as soon as it covers the list's
length. -/
theorem chunksFuel_fuel_irrel {α : Type} :
    ∀ (f1 f2 : Nat) (xs : List α) (n : Nat), 0 < n →
    xs.length ≤ f1 → xs.length ≤ f2 →
    chunksFuel f1 xs n = chunksFuel f2 xs n := by
  intro f1
  induction f1 with
  | zero =>
    intro f2 xs n hn h1 h2
    have hx : xs = [] := List.eq_nil_of_length_eq_zero (Nat.le_zero.mp h1)
    subst hx
    cases f2 <;> simp [chunksFuel]
  | succ f ih =>
    intro f2 xs n hn h1 h2
    cases xs with
    | nil => cases f2 <;> simp [chunksFuel]
    | cons y ys =>
      cases f2 with
      | zero => simp at h2
      | succ g =>
        simp only [chunksFuel]
        congr 1
        apply ih
        · exact hn
        · rw [List.length_drop]
          simp only [List.length_cons] at h1 ⊢
          omega
        · rw [List.length_drop]
          simp only [List.length_cons] at h2 ⊢
          omega

/-- Unfolding equation for `chunks` on a non-empty list and positive chunk
size: the first chunk is the `n`-prefix and the rest chunks the `n`-drop. -/
theorem chunks_cons_eq {α : Type} (xs : List α) (n : Nat) (hn : 0 < n) (hx : xs ≠ []) :
    chunks xs n = xs.take n :: chunks (xs.drop n) n := by
  unfold chunks
  rw [if_neg hn.ne', if_neg hn.ne']
  cases xs with
  | nil => exact absurd rfl hx
  | cons y ys =>
    simp only [List.length_cons, chunksFuel]
    congr 1
    apply chunksFuel_fuel_irrel
    · exact hn
    · rw [List.length_drop]
      simp only [List.length_cons]
      omega
    · exact le_refl _

/-- The request batches issued by the chunk loop do not depend on the
incoming accumulator state. -/
theorem scanChunks_requests_irrel
    (f : List Script → Except Nat (List (List ELSGetHistoryRes))) (t : ScriptType) :
    ∀ (cl : List (List Script)) (st st' : ScanState),
    (scanChunks f t cl st).1 = (scanChunks f t cl st').1 := by
  intro cl
  induction cl with
  | nil => intro st st'; rfl
  | cons c rest ih =>
    intro st st'
    simp only [scanChunks]
    cases hf : f c with
    | error e => rfl
    | ok cr =>
      by_cases hemp : cr.flatten.isEmpty
      · simp [hemp]
      · simp only [hemp, Bool.false_eq_true, if_false, reduceIte]
        simp only [List.cons.injEq, true_and]
        exact ih _ _

/-- A chain whose remaining scripts all have empty history issues exactly
one more chunk request (the gap-limit stop). -/
theorem scanChain_allEmpty (h : Nat → List ELSGetHistoryRes) (t : ScriptType)
    (G : Nat) (st : ScanState) (l : List Script)
    (hG : 0 < G) (hl : l ≠ []) (hemp : ∀ x ∈ l, h x = []) :
    (scanChain (oracleHist h) t l G st).1 = [l.take G] := by
  unfold scanChain
  rw [chunks_cons_eq l G hG hl]
  simp only [scanChunks, oracleHist]
  have hfl : ((l.take G).map h).flatten = [] := by
    apply List.flatten_eq_nil_iff.mpr
    intro x hx
    simp only [List.mem_map] at hx
    obtain ⟨y, hy, rfl⟩ := hx
    exact hemp y (List.take_subset _ _ hy)
  rw [hfl]
  simp

/-- A chain whose next chunk has at least one script with non-empty history
issues that chunk's request and continues on the dropped remainder. -/
theorem scanChain_step (h : Nat → List ELSGetHistoryRes) (t : ScriptType)
    (G : Nat) (st : ScanState) (l : List Script)
    (hG : 0 < G) (hl : l ≠ []) (hx : ∃ x ∈ l.take G, h x ≠ []) :
    ((scanChain (oracleHist h) t l G st).1).length
      = 1 + ((scanChain (oracleHist h) t (l.drop G) G st).1).length := by
  unfold scanChain
  rw [chunks_cons_eq l G hG hl]
  simp only [scanChunks, oracleHist]
  have hfl : ((l.take G).map h).flatten ≠ [] := by
    obtain ⟨x, hxl, hxne⟩ := hx
    intro hcontra
    exact hxne (List.flatten_eq_nil_iff.mp hcontra (h x) (List.mem_map.mpr ⟨x, hxl, rfl⟩))
  have hemp : ((l.take G).map h).flatten.isEmpty = false := by
    cases he : ((l.take G).map h).flatten.isEmpty
    · rfl
    · exact absurd (List.isEmpty_iff.mp he) hfl
  rw [hemp]
  simp only [Bool.false_eq_true, if_false, reduceIte, List.length_cons]
  rw [scanChunks_requests_irrel (oracleHist h) t _ _ st]
  omega

/-- Counting the chunk requests of one chain's scan: if the scripts at
offsets `0..m-1` from `a` are active and the `G` following ones are not,
the scan of `range' a (m+G)` issues `(m+G-1)/G + 1` requests, i.e.
`ceil(m/G) + 1`. -/
theorem scanChain_count_aux (h : Nat → List ELSGetHistoryRes) (t : ScriptType)
    (G : Nat) (hG : 0 < G) :
    ∀ (m a : Nat) (st : ScanState),
    (∀ i, i < m → h (a + i) ≠ []) →
    (∀ i, m ≤ i → i < m + G → h (a + i) = []) →
    ((scanChain (oracleHist h) t (List.range' a (m + G)) G st).1).length
      = (m + G - 1) / G + 1 := by
  intro m
  induction m using Nat.strong_induction_on with
  | h m ih =>
    intro a st hact hemp
    have hlen : (List.range' a (m + G)).length = m + G := by
      simp [List.length_range']
    have hl : List.range' a (m + G) ≠ [] := by
      apply List.ne_nil_of_length_pos
      rw [hlen]
      omega
    have hsplit : List.range' a (m + G) = List.range' a G ++ List.range' (a + G) m := by
      have happ := List.range'_append a G m 1
      simp only [one_mul] at happ
      exact happ.symm
    have htake : (List.range' a (m + G)).take G = List.range' a G := by
      rw [hsplit]
      have h1 : (List.range' a G).length = G := by simp [List.length_range']
      have h2 := List.take_left (List.range' a G) (List.range' (a + G) m)
      rw [h1] at h2
      exact h2
    have hdrop : (List.range' a (m + G)).drop G = List.range' (a + G) m := by
      rw [hsplit]
      have h1 : (List.range' a G).length = G := by simp [List.length_range']
      have h2 := List.drop_left (List.range' a G) (List.range' (a + G) m)
      rw [h1] at h2
      exact h2
    rcases Nat.eq_zero_or_pos m with rfl | hm
    · have hemp' : ∀ x ∈ List.range' a (0 + G), h x = [] := by
        intro x hx
        rw [List.mem_range'] at hx
        obtain ⟨i, hi, hxeq⟩ := hx
        rw [hxeq]
        simp only [one_mul]
        exact hemp i (Nat.zero_le i) (by omega)
      rw [scanChain_allEmpty h t G st _ hG hl hemp']
      simp only [List.length_singleton]
      rw [Nat.div_eq_of_lt (by omega)]
    · have hx : ∃ x ∈ (List.range' a (m + G)).take G, h x ≠ [] := by
        refine ⟨a, ?_, ?_⟩
        · rw [htake, List.mem_range']
          exact ⟨0, hG, by omega⟩
        · have ha0 := hact 0 hm
          simpa using ha0
      rw [scanChain_step h t G st _ hG hl hx, hdrop]
      rcases le_or_lt m G with hle | hlt
      · have hl2 : List.range' (a + G) m ≠ [] := by
          apply List.ne_nil_of_length_pos
          rw [List.length_range']
          omega
        have hemp2 : ∀ x ∈ List.range' (a + G) m, h x = [] := by
          intro x hx2
          rw [List.mem_range'] at hx2
          obtain ⟨j, hj, hxeq⟩ := hx2
          rw [hxeq]
          have heq : a + G + 1 * j = a + (G + j) := by omega
          rw [heq]
          exact hemp (G + j) (by omega) (by omega)
        rw [scanChain_allEmpty h t G st _ hG hl2 hemp2]
        simp only [List.length_singleton]
        rw [@Nat.div_eq_of_lt_le 1 G (m + G - 1) (by omega) (by omega)]
      · have hact2 : ∀ i, i < m - G → h (a + G + i) ≠ [] := by
          intro i hi
          have heq : a + G + i = a + (G + i) := by omega
          rw [heq]
          exact hact (G + i) (by omega)
        have hemp2 : ∀ i, m - G ≤ i → i < m - G + G → h (a + G + i) = [] := by
          intro i h1 h2
          have heq : a + G + i = a + (G + i) := by omega
          rw [heq]
          exact hemp (G + i) (by omega) (by omega)
        have hih := ih (m - G) (by omega) (a + G) st hact2 hemp2
        have harr : m - G + G = m := by omega
        rw [harr] at hih
        rw [hih]
        have hdiv : (m + G - 1) / G = (m - 1) / G + 1 := by
          have heq : m + G - 1 = m - 1 + G := by omega
          rw [heq, Nat.add_div_right _ hG]
        rw [hdiv]
        omega

/-- Claim C8 (confirmed): for a chain with stop-gap `G` whose scripts at
derivation indices `0..k-1` have non-empty history while those at
`k..k+G-1` have empty history (and there are none beyond), the scanner
issues exactly `ceil(k/G) + 1 = (k+G-1)/G + 1` chunked history requests and
stops; for `k = 0` this is exactly one request. -/
theorem claim_C8_gap_limit_request_count :
    ∀ (h : Nat → List ELSGetHistoryRes) (G k : Nat) (t : ScriptType) (st : ScanState),
    0 < G →
    (∀ i, i < k → h i ≠ []) →
    (∀ i, k ≤ i → i < k + G → h i = []) →
    ((scanChain (oracleHist h) t (List.range (k + G)) G st).1).length
      = (k + G - 1) / G + 1 := by
  intro h G k t st hG hact hemp
  rw [List.range_eq_range']
  exact scanChain_count_aux h t G hG k 0 st
    (fun i hi => by simpa using hact i hi)
    (fun i h1 h2 => by simpa using hemp i h1 h2)

/-- Witness for claim C8: with `exHist` (indices 0,1,2 active) and stop-gap
2, the scanner issues `(3+2-1)/2 + 1 = 3` chunk requests; and a fully
unused chain issues exactly one. -/
theorem claim_C8_witness :
    0 < 2 ∧
    ((scanChain (oracleHist exHist) ScriptType.External (List.range (3 + 2)) 2
        ScanState.init).1).length = (3 + 2 - 1) / 2 + 1 ∧
    ((scanChain (oracleHist (fun _ => [])) ScriptType.External (List.range (0 + 20)) 20
        ScanState.init).1).length = (0 + 20 - 1) / 20 + 1 :=
  ⟨by decide,
   claim_C8_gap_limit_request_count exHist 2 3 ScriptType.External ScanState.init
     (by decide)
     (fun i hi => by simp [exHist, hi])
     (fun i h1 h2 => by simp [exHist]; omega),
   claim_C8_gap_limit_request_count (fun _ => []) 20 0 ScriptType.External ScanState.init
     (by decide)
     (fun i hi => by omega)
     (fun i h1 h2 => rfl)⟩
